import Mathlib

/-!
Shallow embedding of the snake game core from src/main.go and proofs about
its specification.  The grid size is the source constant size = 10; the wrap
bounds in move() are the literal constant 10.  The global math/rand stream is
made explicit as a function from draw positions to raw values, and the
unbounded retry recursion of generateNextPoint is bounded by a fuel
parameter: a none result models a run of retries that has not terminated.
-/

set_option linter.unusedVariables false

namespace SnakeGame

/-- A grid cell, mirroring the Go struct Point with two int64 fields. -/
structure Point where
  x : Int
  y : Int
deriving DecidableEq

/-- The game state, mirroring the Go struct Snake.  Directions are the byte
literals used in the source: u, d, l, r. -/
structure Snake where
  nextPoint : Point
  growth : Int
  direction : Char
  nextDirection : Char
  head : Point
  tail : List Point
deriving DecidableEq

/-- Per-axis wrap of move(): the source checks coordinate > 10 and then
coordinate < 1 in sequence; the first branch produces 1, which the second
branch never touches, so a nested conditional is equivalent. -/
def wrap (c : Int) : Int :=
  if c > 10 then 1 else if c < 1 then 10 else c

/-- The movement delta of the switch statement in move(): an unknown byte
falls through with a zero delta. -/
def moveDXY (d : Char) : Int × Int :=
  if d = 'u' then (0, -1)
  else if d = 'd' then (0, 1)
  else if d = 'l' then (-1, 0)
  else if d = 'r' then (1, 0)
  else (0, 0)

/-- Go move(): compute the shrink amount delta from growth, rebuild the tail
by prepending the pre-move head and dropping delta cells from the end,
commit the pending direction, move the head and wrap both axes.  The slice
expression tail[:len(tail)-delta] panics when delta exceeds the length; that
branch is modelled as none. -/
def move (s : Snake) : Option Snake :=
  let delta : Nat := if s.growth > 0 then 0 else 1
  let growth : Int := if s.growth > 0 then s.growth - 1 else s.growth
  if delta ≤ s.tail.length then
    let tl : List Point := s.head :: s.tail.take (s.tail.length - delta)
    let d : Char := s.nextDirection
    some { s with
      growth := growth
      tail := tl
      direction := d
      head := ⟨wrap (s.head.x + (moveDXY d).1), wrap (s.head.y + (moveDXY d).2)⟩ }
  else
    none

/-- One candidate food cell: Point{rand.Int63n(size - 1) + 1,
rand.Int63n(size - 1) + 1} with size = 10, fed from the stream r at cursor
position i; Int63n(9) yields a value in the interval from 0 to 8. -/
def drawPoint (r : Nat → Nat) (i : Nat) : Point :=
  ⟨((r i % 9 : Nat) : Int) + 1, ((r (i + 1) % 9 : Nat) : Int) + 1⟩

/-- The range-over-tail loop of generateNextPoint(): each tail cell equal to
the current candidate triggers a recursive regeneration (the retry
continuation), after which the loop keeps scanning the remaining cells
against the regenerated candidate. -/
def genLoop (retry : Nat → Option (Point × Nat)) :
    List Point → Point × Nat → Option (Point × Nat)
  | [], pi => some pi
  | q :: rest, (p, i) =>
    match (if q = p then retry i else some (p, i)) with
    | none => none
    | some pi => genLoop retry rest pi

/-- Go generateNextPoint(): draw a candidate, regenerate if it equals the
head, then scan the tail, regenerating on any hit.  The function only reads
the head and tail of the receiver and writes nextPoint, so it is embedded as
a function of those two fields returning the new food cell and the advanced
stream cursor. -/
def generateNextPoint (r : Nat → Nat) (hd : Point) (tl : List Point) :
    Nat → Nat → Option (Point × Nat)
  | 0, _ => none
  | fuel + 1, i =>
    let p := drawPoint r i
    match (if p = hd then generateNextPoint r hd tl fuel (i + 2) else some (p, i + 2)) with
    | none => none
    | some pi => genLoop (fun j => generateNextPoint r hd tl fuel j) tl pi

/-- Go checkPoint(): on a food hit, increment growth and regenerate the food
cell from the current head and tail. -/
def checkPoint (r : Nat → Nat) (fuel i : Nat) (s : Snake) : Option (Snake × Nat) :=
  if s.head = s.nextPoint then
    match generateNextPoint r s.head s.tail fuel i with
    | none => none
    | some (p, j) => some ({ s with growth := s.growth + 1, nextPoint := p }, j)
  else
    some (s, i)

/-- The truncation performed by checkCollisions(): tail[0:i] at the first
cell equal to the head, the whole tail when there is no such cell. -/
def truncAt (hd : Point) : List Point → List Point
  | [] => []
  | q :: rest => if q = hd then [] else q :: truncAt hd rest

/-- Go checkCollisions(). -/
def checkCollisions (s : Snake) : Snake :=
  { s with tail := truncAt s.head s.tail }

/-- One timed tick of the run loop: move(), checkPoint(), checkCollisions(),
threading the random stream cursor. -/
def advance (r : Nat → Nat) (fuel i : Nat) (s : Snake) : Option (Snake × Nat) :=
  match move s with
  | none => none
  | some s1 =>
    match checkPoint r fuel i s1 with
    | none => none
    | some (s2, j) => some (checkCollisions s2, j)

/-- The opposite direction byte. -/
def reverseDir (d : Char) : Char :=
  if d = 'u' then 'd'
  else if d = 'd' then 'u'
  else if d = 'l' then 'r'
  else if d = 'r' then 'l'
  else d

/-- The key-press handling of the run loop: pressing the key for direction d
sets nextDirection to d unless the committed direction is the reverse of d,
in which case the press is silently dropped. -/
def submitDirection (s : Snake) (d : Char) : Snake :=
  if s.direction = reverseDir d then s else { s with nextDirection := d }

/-- The package-level snake literal; nextPoint starts at the Go zero value
and is initialised by the generateNextPoint call at the top of run(). -/
def initialSnake : Snake :=
  { nextPoint := ⟨0, 0⟩
    growth := 0
    direction := 'u'
    nextDirection := 'u'
    head := ⟨3, 3⟩
    tail := [⟨3, 4⟩, ⟨3, 5⟩, ⟨3, 6⟩, ⟨3, 7⟩, ⟨3, 8⟩] }

/-- The four direction bytes the run loop can ever submit. -/
abbrev dirOk (d : Char) : Prop := d = 'u' ∨ d = 'd' ∨ d = 'l' ∨ d = 'r'

/-- Head coordinates inside the board. -/
abbrev inGrid (p : Point) : Prop := 1 ≤ p.x ∧ p.x ≤ 10 ∧ 1 ≤ p.y ∧ p.y ≤ 10

/-- The value range of one food draw: both coordinates between 1 and 9. -/
abbrev inFoodRange (p : Point) : Prop := 1 ≤ p.x ∧ p.x ≤ 9 ∧ 1 ≤ p.y ∧ p.y ≤ 9

/-- States reachable by the run loop: the initial food placement on the
literal initial snake, then any interleaving of key presses and ticks, over
all random streams and stream cursors. -/
inductive Reachable : Snake → Prop where
  | init (r : Nat → Nat) (fuel : Nat) (p : Point) (j : Nat) :
      generateNextPoint r initialSnake.head initialSnake.tail fuel 0 = some (p, j) →
      Reachable { initialSnake with nextPoint := p }
  | submit (s : Snake) (d : Char) : Reachable s → dirOk d →
      Reachable (submitDirection s d)
  | tick (s : Snake) (r : Nat → Nat) (fuel i : Nat) (s' : Snake) (j : Nat) :
      Reachable s → advance r fuel i s = some (s', j) → Reachable s'

/-- The state invariant maintained by the run loop. -/
abbrev Inv (s : Snake) : Prop :=
  dirOk s.direction ∧ dirOk s.nextDirection ∧ inGrid s.head ∧ s.tail ≠ []

/-- The wrap step always lands inside the board, whatever the input. -/
theorem wrap_bounds (c : Int) : 1 ≤ wrap c ∧ wrap c ≤ 10 := by
  unfold wrap; split_ifs <;> omega

/-- On a non-empty tail, move() takes its success branch and produces the
rebuilt state. -/
theorem move_eq (s : Snake) (h : s.tail ≠ []) :
    move s = some { s with
      growth := if s.growth > 0 then s.growth - 1 else s.growth
      tail := s.head :: s.tail.take (s.tail.length - (if s.growth > 0 then 0 else 1))
      direction := s.nextDirection
      head := ⟨wrap (s.head.x + (moveDXY s.nextDirection).1),
               wrap (s.head.y + (moveDXY s.nextDirection).2)⟩ } := by
  have hlen : 0 < s.tail.length := List.length_pos.mpr h
  simp only [move]
  rw [if_pos]
  split_ifs <;> omega

/-- Any successful move() keeps the guard: the shrink amount was within the
tail length. -/
theorem move_guard (s : Snake) (s1 : Snake) (h : move s = some s1) :
    (if s.growth > 0 then 0 else 1) ≤ s.tail.length := by
  by_contra hc
  simp only [move, if_neg hc] at h
  simp at h

/-- A moved head never equals the pre-move head: each direction byte shifts
one axis by one, and wrapping around a board of size ten cannot undo that. -/
theorem movedHead_ne (d : Char) (hd : dirOk d) (p : Point) (hp : inGrid p) :
    Point.mk (wrap (p.x + (moveDXY d).1)) (wrap (p.y + (moveDXY d).2)) ≠ p := by
  obtain ⟨hx1, hx2, hy1, hy2⟩ := hp
  rcases hd with h | h | h | h <;> subst h <;>
    · intro heq
      have hx := congrArg Point.x heq
      have hy := congrArg Point.y heq
      simp only [moveDXY] at hx hy
      norm_num at hx hy
      unfold wrap at hx hy
      split_ifs at hx hy <;> omega

/-- checkPoint() leaves head, tail and both direction fields alone; it either
hits the food and regenerates it with an incremented growth, or does
nothing. -/
theorem checkPoint_some (r : Nat → Nat) (fuel i : Nat) (s s2 : Snake) (j : Nat)
    (h : checkPoint r fuel i s = some (s2, j)) :
    s2.head = s.head ∧ s2.tail = s.tail ∧ s2.direction = s.direction ∧
      s2.nextDirection = s.nextDirection ∧
      ((s.head = s.nextPoint ∧ s2.growth = s.growth + 1 ∧
          generateNextPoint r s.head s.tail fuel i = some (s2.nextPoint, j)) ∨
        (s.head ≠ s.nextPoint ∧ s2 = s ∧ j = i)) := by
  unfold checkPoint at h
  by_cases hf : s.head = s.nextPoint
  · rw [if_pos hf] at h
    cases hg : generateNextPoint r s.head s.tail fuel i with
    | none => rw [hg] at h; exact absurd h (by simp)
    | some pj =>
      obtain ⟨p, j'⟩ := pj
      rw [hg] at h
      simp only [Option.some.injEq, Prod.mk.injEq] at h
      obtain ⟨hs2, hj⟩ := h
      subst hs2; subst hj
      exact ⟨rfl, rfl, rfl, rfl, Or.inl ⟨hf, rfl, rfl⟩⟩
  · rw [if_neg hf] at h
    simp only [Option.some.injEq, Prod.mk.injEq] at h
    obtain ⟨hs2, hj⟩ := h
    subst hs2; subst hj
    exact ⟨rfl, rfl, rfl, rfl, Or.inr ⟨hf, rfl, rfl⟩⟩

/-- A successful advance() decomposes into its three phases. -/
theorem advance_some (r : Nat → Nat) (fuel i : Nat) (s s' : Snake) (j : Nat)
    (h : advance r fuel i s = some (s', j)) :
    ∃ s1 s2, move s = some s1 ∧ checkPoint r fuel i s1 = some (s2, j) ∧
      s' = checkCollisions s2 := by
  unfold advance at h
  split at h
  · exact absurd h (by simp)
  · rename_i s1 hm
    split at h
    · exact absurd h (by simp)
    · rename_i s2 j2 hc
      simp only [Option.some.injEq, Prod.mk.injEq] at h
      exact ⟨s1, s2, hm, by rw [hc, h.2], h.1.symm⟩

/-- Truncation never lengthens the tail. -/
theorem truncAt_length_le (hd : Point) : ∀ l : List Point,
    (truncAt hd l).length ≤ l.length
  | [] => by simp [truncAt]
  | q :: rest => by
    by_cases hq : q = hd <;> simp [truncAt, hq]
    exact truncAt_length_le hd rest

/-- Without a collision the truncation is the identity. -/
theorem truncAt_of_not_mem (hd : Point) : ∀ l : List Point, hd ∉ l →
    truncAt hd l = l
  | [], _ => rfl
  | q :: rest, h => by
    have hq : q ≠ hd := fun he => h (he ▸ List.mem_cons_self q rest)
    simp [truncAt, hq]
    exact truncAt_of_not_mem hd rest (fun hm => h (List.mem_cons_of_mem q hm))

/-- Truncation at the first matching index keeps exactly the cells before
the match. -/
theorem truncAt_firstMatch (hd : Point) : ∀ (l : List Point) (k : Nat),
    l[k]? = some hd → (∀ m, m < k → l[m]? ≠ some hd) →
    truncAt hd l = l.take k
  | [], k, h, _ => by simp at h
  | q :: rest, 0, h, _ => by
    simp only [List.getElem?_cons_zero, Option.some.injEq] at h
    simp [truncAt, h]
  | q :: rest, k + 1, h, hmin => by
    have hq : q ≠ hd := by
      have h0 := hmin 0 (Nat.succ_pos k)
      simp only [List.getElem?_cons_zero, ne_eq, Option.some.injEq] at h0
      exact h0
    have hrest : rest[k]? = some hd := by
      simpa using h
    have hminrest : ∀ m, m < k → rest[m]? ≠ some hd := by
      intro m hm
      have := hmin (m + 1) (Nat.succ_lt_succ hm)
      simpa using this
    simp [truncAt, hq, List.take_succ_cons]
    exact truncAt_firstMatch hd rest k hrest hminrest

/-- The tail-scan loop propagates any property that every retry result
satisfies and the incoming candidate satisfies. -/
theorem genLoop_pred (Q : Point → Prop) (retry : Nat → Option (Point × Nat))
    (hr : ∀ j p j', retry j = some (p, j') → Q p) :
    ∀ (l : List Point) (p : Point) (i : Nat) (p' : Point) (j' : Nat), Q p →
      genLoop retry l (p, i) = some (p', j') → Q p'
  | [], p, i, p', j', hq, h => by
    simp only [genLoop, Option.some.injEq, Prod.mk.injEq] at h
    exact h.1 ▸ hq
  | q :: rest, p, i, p', j', hq, h => by
    by_cases hqp : q = p
    · rw [genLoop, if_pos hqp] at h
      cases hre : retry i with
      | none => rw [hre] at h; exact absurd h (by simp)
      | some pi =>
        obtain ⟨p1, i1⟩ := pi
        rw [hre] at h
        exact genLoop_pred Q retry hr rest p1 i1 p' j' (hr i p1 i1 hre) h
    · rw [genLoop, if_neg hqp] at h
      exact genLoop_pred Q retry hr rest p i p' j' hq h

/-- The tail-scan loop on a sub-list of the tail: the final candidate misses
the head, misses every scanned cell, and is either the incoming candidate or
a fresh retry result missing the whole tail. -/
theorem genLoop_avoid (retry : Nat → Option (Point × Nat)) (hdP : Point)
    (tlAll : List Point)
    (hr : ∀ j p j', retry j = some (p, j') → p ≠ hdP ∧ p ∉ tlAll) :
    ∀ (l : List Point), (∀ q, q ∈ l → q ∈ tlAll) →
      ∀ (p : Point) (i : Nat) (p' : Point) (j' : Nat), p ≠ hdP →
      genLoop retry l (p, i) = some (p', j') →
      p' ≠ hdP ∧ p' ∉ l ∧ (p' = p ∨ p' ∉ tlAll)
  | [], _, p, i, p', j', hp, h => by
    simp only [genLoop, Option.some.injEq, Prod.mk.injEq] at h
    obtain ⟨h1, h2⟩ := h
    subst h1
    exact ⟨hp, by simp, Or.inl rfl⟩
  | q :: rest, hsub, p, i, p', j', hp, h => by
    have hqAll : q ∈ tlAll := hsub q (List.mem_cons_self q rest)
    have hsubRest : ∀ x, x ∈ rest → x ∈ tlAll :=
      fun x hx => hsub x (List.mem_cons_of_mem q hx)
    by_cases hqp : q = p
    · rw [genLoop, if_pos hqp] at h
      cases hre : retry i with
      | none => rw [hre] at h; exact absurd h (by simp)
      | some pi =>
        obtain ⟨p1, i1⟩ := pi
        rw [hre] at h
        obtain ⟨hr1, hr2⟩ := hr i p1 i1 hre
        obtain ⟨h1, h2, h3⟩ :=
          genLoop_avoid retry hdP tlAll hr rest hsubRest p1 i1 p' j' hr1 h
        have hnotAll : p' ∉ tlAll := by
          rcases h3 with h3 | h3
          · exact h3 ▸ hr2
          · exact h3
        exact ⟨h1, by
          intro hmem
          rcases List.mem_cons.mp hmem with hmem | hmem
          · exact hnotAll (hmem ▸ hqAll)
          · exact h2 hmem, Or.inr hnotAll⟩
    · rw [genLoop, if_neg hqp] at h
      obtain ⟨h1, h2, h3⟩ :=
        genLoop_avoid retry hdP tlAll hr rest hsubRest p i p' j' hp h
      refine ⟨h1, ?_, h3⟩
      intro hmem
      rcases List.mem_cons.mp hmem with hmem | hmem
      · subst hmem
        rcases h3 with h3 | h3
        · exact hqp (h3 ▸ rfl)
        · exact h3 hqAll
      · exact h2 hmem

/-- Every candidate draw lands in the food range. -/
theorem drawPoint_range (r : Nat → Nat) (i : Nat) : inFoodRange (drawPoint r i) := by
  simp only [drawPoint, inFoodRange]
  refine ⟨?_, ?_, ?_, ?_⟩ <;> omega

/-- Whenever the food placement terminates, the produced cell has both
coordinates between 1 and 9. -/
theorem generateNextPoint_range :
    ∀ (fuel : Nat) (r : Nat → Nat) (hd : Point) (tl : List Point)
      (i : Nat) (p : Point) (j : Nat),
      generateNextPoint r hd tl fuel i = some (p, j) → inFoodRange p
  | 0, r, hd, tl, i, p, j, h => by simp [generateNextPoint] at h
  | fuel + 1, r, hd, tl, i, p, j, h => by
    rw [generateNextPoint] at h
    have hr : ∀ j' p' j'',
        (fun j'' => generateNextPoint r hd tl fuel j'') j' = some (p', j'') →
        inFoodRange p' :=
      fun j' p' j'' hh => generateNextPoint_range fuel r hd tl j' p' j'' hh
    by_cases hph : drawPoint r i = hd
    · rw [if_pos hph] at h
      cases hg : generateNextPoint r hd tl fuel (i + 2) with
      | none => rw [hg] at h; exact absurd h (by simp)
      | some pi =>
        obtain ⟨p1, i1⟩ := pi
        rw [hg] at h
        exact genLoop_pred inFoodRange _ hr tl p1 i1 p j
          (generateNextPoint_range fuel r hd tl (i + 2) p1 i1 hg) h
    · rw [if_neg hph] at h
      exact genLoop_pred inFoodRange _ hr tl (drawPoint r i) (i + 2) p j
        (drawPoint_range r i) h

/-- Whenever the food placement terminates, the produced cell differs from
the head and from every tail cell it was given. -/
theorem generateNextPoint_avoid :
    ∀ (fuel : Nat) (r : Nat → Nat) (hd : Point) (tl : List Point)
      (i : Nat) (p : Point) (j : Nat),
      generateNextPoint r hd tl fuel i = some (p, j) → p ≠ hd ∧ p ∉ tl
  | 0, r, hd, tl, i, p, j, h => by simp [generateNextPoint] at h
  | fuel + 1, r, hd, tl, i, p, j, h => by
    rw [generateNextPoint] at h
    have hr : ∀ j' p' j'',
        (fun j'' => generateNextPoint r hd tl fuel j'') j' = some (p', j'') →
        p' ≠ hd ∧ p' ∉ tl :=
      fun j' p' j'' hh => generateNextPoint_avoid fuel r hd tl j' p' j'' hh
    have hsub : ∀ q, q ∈ tl → q ∈ tl := fun q hq => hq
    by_cases hph : drawPoint r i = hd
    · rw [if_pos hph] at h
      cases hg : generateNextPoint r hd tl fuel (i + 2) with
      | none => rw [hg] at h; exact absurd h (by simp)
      | some pi =>
        obtain ⟨p1, i1⟩ := pi
        rw [hg] at h
        obtain ⟨ha, hb⟩ := generateNextPoint_avoid fuel r hd tl (i + 2) p1 i1 hg
        obtain ⟨h1, h2, h3⟩ := genLoop_avoid _ hd tl hr tl hsub p1 i1 p j ha h
        exact ⟨h1, h2⟩
    · rw [if_neg hph] at h
      obtain ⟨h1, h2, h3⟩ :=
        genLoop_avoid _ hd tl hr tl hsub (drawPoint r i) (i + 2) p j hph h
      exact ⟨h1, h2⟩

/-- Every state the run loop can reach satisfies the master invariant:
legal direction bytes, an on-board head, and a non-empty tail. -/
theorem reach_inv : ∀ s : Snake, Reachable s → Inv s := by
  intro s h
  induction h with
  | init r fuel p j hgen =>
    exact ⟨Or.inl rfl, Or.inl rfl, show inGrid initialSnake.head by decide,
      by simp [initialSnake]⟩
  | submit s d hs hd ih =>
    unfold submitDirection
    split
    · exact ih
    · exact ⟨ih.1, hd, ih.2.2⟩
  | tick s r fuel i s' j hs hadv ih =>
    obtain ⟨hdir, hnext, hhead, htail⟩ := ih
    obtain ⟨s1, s2, hm, hc, hs'⟩ := advance_some r fuel i s s' j hadv
    rw [move_eq s htail] at hm
    have hs1 := (Option.some.injEq _ _).mp hm
    obtain ⟨hh, ht, hd2, hn2, _⟩ := checkPoint_some r fuel i s1 s2 j hc
    subst hs'
    have hheadne : s1.head ≠ s.head := by
      rw [← hs1]
      exact movedHead_ne s.nextDirection hnext s.head hhead
    have e1 : (checkCollisions s2).direction = s.nextDirection := by
      show s2.direction = s.nextDirection
      rw [hd2, ← hs1]
    have e2 : (checkCollisions s2).nextDirection = s.nextDirection := by
      show s2.nextDirection = s.nextDirection
      rw [hn2, ← hs1]
    have e3 : (checkCollisions s2).head = Point.mk
        (wrap (s.head.x + (moveDXY s.nextDirection).1))
        (wrap (s.head.y + (moveDXY s.nextDirection).2)) := by
      show s2.head = _
      rw [hh, ← hs1]
    refine ⟨?_, ?_, ?_, ?_⟩
    · rw [e1]; exact hnext
    · rw [e2]; exact hnext
    · rw [e3]
      exact ⟨(wrap_bounds _).1, (wrap_bounds _).2, (wrap_bounds _).1, (wrap_bounds _).2⟩
    · show truncAt s2.head s2.tail ≠ []
      rw [hh, ht]
      have htl : s1.tail = s.head :: s.tail.take
          (s.tail.length - (if s.growth > 0 then 0 else 1)) := by rw [← hs1]
      rw [htl]
      simp only [truncAt]
      rw [if_neg (fun he => hheadne he.symm)]
      simp

/-- checkPoint() can only fail in the model on a food hit whose regeneration
ran out of fuel. -/
theorem checkPoint_none (r : Nat → Nat) (fuel i : Nat) (s : Snake)
    (h : checkPoint r fuel i s = none) :
    s.head = s.nextPoint ∧ generateNextPoint r s.head s.tail fuel i = none := by
  unfold checkPoint at h
  by_cases hf : s.head = s.nextPoint
  · rw [if_pos hf] at h
    cases hg : generateNextPoint r s.head s.tail fuel i with
    | none => exact ⟨hf, hg ▸ rfl⟩
    | some pj =>
      obtain ⟨p, j⟩ := pj
      rw [hg] at h
      exact absurd h (by simp)
  · rw [if_neg hf] at h
    exact absurd h (by simp)

/-- When move() succeeds, a failing advance() pins the failure on
checkPoint(). -/
theorem advance_none (r : Nat → Nat) (fuel i : Nat) (s s1 : Snake)
    (hm : move s = some s1) (h : advance r fuel i s = none) :
    checkPoint r fuel i s1 = none := by
  unfold advance at h
  split at h
  · rename_i hmove
    rw [hmove] at hm
    exact Option.noConfusion hm
  · rename_i s1' hmove
    have he : s1' = s1 := by
      rw [hmove] at hm
      exact (Option.some.injEq _ _).mp hm
    subst he
    split at h
    · rename_i hcp
      exact hcp
    · exact Option.noConfusion h

/-- A successful move() forces the rebuilt-state shape. -/
theorem move_some_eq (s s1 : Snake) (h : move s = some s1) :
    s1 = { s with
      growth := if s.growth > 0 then s.growth - 1 else s.growth
      tail := s.head :: s.tail.take (s.tail.length - (if s.growth > 0 then 0 else 1))
      direction := s.nextDirection
      head := ⟨wrap (s.head.x + (moveDXY s.nextDirection).1),
               wrap (s.head.y + (moveDXY s.nextDirection).2)⟩ } := by
  have hg := move_guard s s1 h
  simp only [move] at h
  rw [if_pos hg] at h
  exact ((Option.some.injEq _ _).mp h).symm

/-- reverseDir is an involution on all bytes. -/
theorem reverseDir_invol (d : Char) : reverseDir (reverseDir d) = d := by
  by_cases h1 : d = 'u'
  · subst h1; rfl
  by_cases h2 : d = 'd'
  · subst h2; rfl
  by_cases h3 : d = 'l'
  · subst h3; rfl
  by_cases h4 : d = 'r'
  · subst h4; rfl
  simp [reverseDir, h1, h2, h3, h4]

/-- Length of the rebuilt tail after a successful move(). -/
theorem move_tail_length (s s1 : Snake) (h : move s = some s1) :
    s1.tail.length = s.tail.length - (if s.growth > 0 then 0 else 1) + 1 := by
  rw [move_some_eq s s1 h]
  show (s.head :: s.tail.take
      (s.tail.length - (if s.growth > 0 then 0 else 1))).length = _
  simp only [List.length_cons, List.length_take]
  rw [Nat.min_eq_left (Nat.sub_le _ _)]

/-- A tick without self-collision keeps the post-move tail and head, and
changes growth exactly on a food hit. -/
theorem advance_no_collision (r : Nat → Nat) (fuel i : Nat) (s s1 s2 : Snake)
    (j : Nat) (hm : move s = some s1) (hadv : advance r fuel i s = some (s2, j))
    (hnc : s1.head ∉ s1.tail) :
    s2.tail = s1.tail ∧ s2.head = s1.head ∧
      ((s1.head = s1.nextPoint ∧ s2.growth = s1.growth + 1) ∨
        (s1.head ≠ s1.nextPoint ∧ s2.growth = s1.growth)) := by
  obtain ⟨t1, t2, hm', hc, hs2⟩ := advance_some r fuel i s s2 j hadv
  rw [hm] at hm'
  have ht1 : t1 = s1 := ((Option.some.injEq _ _).mp hm').symm
  rw [ht1] at hc
  obtain ⟨hh, ht, _, _, hcase⟩ := checkPoint_some r fuel i s1 t2 j hc
  subst hs2
  have htr : truncAt t2.head t2.tail = t2.tail := by
    rw [hh, ht]; exact truncAt_of_not_mem s1.head s1.tail hnc
  refine ⟨?_, ?_, ?_⟩
  · show truncAt t2.head t2.tail = s1.tail
    rw [htr, ht]
  · show t2.head = s1.head
    exact hh
  · rcases hcase with ⟨hf, hgr, _⟩ | ⟨hf, hteq, _⟩
    · exact Or.inl ⟨hf, show t2.growth = _ from hgr⟩
    · exact Or.inr ⟨hf, show t2.growth = _ from by rw [hteq]⟩

/-- A stream of raw draws that always yields 8, producing candidate (9,9). -/
def rngNine : Nat → Nat := fun _ => 8

/-- A stream of raw draws that always yields 0, producing candidate (1,1). -/
def rngZero : Nat → Nat := fun _ => 0

/-- The start state after an initial placement that put the food at (9,9). -/
def startFood99 : Snake := { initialSnake with nextPoint := ⟨9, 9⟩ }

/-- startFood99 is produced by the run loop on the all-eights stream. -/
theorem startFood99_reachable : Reachable startFood99 :=
  Reachable.init rngNine 1 ⟨9, 9⟩ 2 (by decide)

/-- The state one tick after startFood99 with no key pressed. -/
def afterTick99 : Snake :=
  { initialSnake with
      nextPoint := ⟨9, 9⟩, head := ⟨3, 2⟩,
      tail := [⟨3, 3⟩, ⟨3, 4⟩, ⟨3, 5⟩, ⟨3, 6⟩, ⟨3, 7⟩] }

/-- C1, counterexample: the corner cell (10,10) — and with it the whole
rightmost column and bottommost row, coordinate value N = 10 — can never be
produced by the food placement, contradicting the claimed inclusive range
[1, N]: the source draws rand.Int63n(size - 1) + 1, which tops out at 9. -/
theorem C1_counterexample :
    ¬ ∃ (r : Nat → Nat) (fuel i j : Nat),
      generateNextPoint r initialSnake.head initialSnake.tail fuel i
        = some (⟨10, 10⟩, j) := by
  rintro ⟨r, fuel, i, j, h⟩
  have hrange := generateNextPoint_range fuel r _ _ i _ j h
  exact absurd hrange.2.1 (by decide)

/-- C1, amended: every food cell the placement produces has both coordinates
in the inclusive range [1, N-1] = [1, 9]; within that square the corner
(9,9) is attainable from the initial snake. -/
theorem C1_food_range :
    (∀ (r : Nat → Nat) (hd : Point) (tl : List Point) (fuel i : Nat)
        (p : Point) (j : Nat),
        generateNextPoint r hd tl fuel i = some (p, j) → inFoodRange p) ∧
    (∃ (r : Nat → Nat) (fuel j : Nat),
        generateNextPoint r initialSnake.head initialSnake.tail fuel 0
          = some (⟨9, 9⟩, j)) :=
  ⟨fun r hd tl fuel i p j h => generateNextPoint_range fuel r hd tl i p j h,
   ⟨rngNine, 1, 2, by decide⟩⟩

/-- Witness for C1_food_range at a concrete run of the placement. -/
theorem C1_food_range_witness : inFoodRange ⟨1, 1⟩ :=
  C1_food_range.1 rngZero ⟨3, 3⟩ [] 1 0 ⟨1, 1⟩ 2 (by decide)

/-- C4: from any reachable state, a tick leaves the head inside the board:
both coordinates between 1 and N = 10. -/
theorem C4_wrap_invariant (s : Snake) (h : Reachable s) (r : Nat → Nat)
    (fuel i : Nat) (s' : Snake) (j : Nat)
    (hadv : advance r fuel i s = some (s', j)) : inGrid s'.head :=
  (reach_inv s' (Reachable.tick s r fuel i s' j h hadv)).2.2.1

/-- Witness for C4_wrap_invariant on the first tick of a concrete run. -/
theorem C4_wrap_invariant_witness : inGrid afterTick99.head :=
  C4_wrap_invariant startFood99 startFood99_reachable rngZero 1 0
    afterTick99 0 (by decide)

/-- A stream drawing the candidate (3,2). -/
def rngFood32 : Nat → Nat := fun i => if i = 0 then 2 else 1

/-- A stream drawing the candidate (3,1). -/
def rngFood31 : Nat → Nat := fun i => if i = 0 then 2 else 0

/-- The start state after an initial placement that put the food at (3,2),
directly in the path of the upward-moving head. -/
def startFood32 : Snake := { initialSnake with nextPoint := ⟨3, 2⟩ }

/-- startFood32 after move(): head on the food cell. -/
def startFood32Moved : Snake :=
  { initialSnake with
      nextPoint := ⟨3, 2⟩, head := ⟨3, 2⟩,
      tail := [⟨3, 3⟩, ⟨3, 4⟩, ⟨3, 5⟩, ⟨3, 6⟩, ⟨3, 7⟩] }

/-- The state after the first consuming tick: growth pending one, food
regenerated at (3,1), again in the head's path. -/
def eatOnce : Snake :=
  { initialSnake with
      nextPoint := ⟨3, 1⟩, growth := 1, head := ⟨3, 2⟩,
      tail := [⟨3, 3⟩, ⟨3, 4⟩, ⟨3, 5⟩, ⟨3, 6⟩, ⟨3, 7⟩] }

/-- eatOnce after move(): pending growth applied, head on the food again. -/
def eatOnceMoved : Snake :=
  { initialSnake with
      nextPoint := ⟨3, 1⟩, growth := 0, head := ⟨3, 1⟩,
      tail := [⟨3, 2⟩, ⟨3, 3⟩, ⟨3, 4⟩, ⟨3, 5⟩, ⟨3, 6⟩, ⟨3, 7⟩] }

/-- The state after the second consuming tick: the tail grew during a tick
that itself consumed food. -/
def eatTwice : Snake :=
  { initialSnake with
      nextPoint := ⟨1, 1⟩, growth := 1, head := ⟨3, 1⟩,
      tail := [⟨3, 2⟩, ⟨3, 3⟩, ⟨3, 4⟩, ⟨3, 5⟩, ⟨3, 6⟩, ⟨3, 7⟩] }

/-- C6 fails as stated: eatOnce is reachable, its tick moves the head onto
the food cell, yet the tail length at the end of that tick is six, not the
five it started with — because growthPending was already one when the food
was consumed, so growth and consumption landed on the same tick. -/
theorem C6_counterexample :
    Reachable eatOnce ∧ move eatOnce = some eatOnceMoved ∧
      eatOnceMoved.head = eatOnce.nextPoint ∧
      advance rngZero 1 0 eatOnce = some (eatTwice, 2) ∧
      eatOnce.tail.length = 5 ∧ eatTwice.tail.length = 6 := by
  refine ⟨?_, by decide, by decide, by decide, by decide, by decide⟩
  have h0 : Reachable startFood32 :=
    Reachable.init rngFood32 1 ⟨3, 2⟩ 2 (by decide)
  exact Reachable.tick startFood32 rngFood31 1 0 eatOnce 2 h0 (by decide)

/-- C6, amended: provided growthPending is zero at the start of the
consuming tick and no self-collision occurs, consuming food leaves the tail
length unchanged on that tick and sets growthPending to one; the following
tick (collision-free) then lengthens the tail by exactly one, while a
collision-free, consumption-free tick from growthPending zero — the
no-consumption baseline — leaves the length unchanged. -/
theorem C6_growth_delay :
    (∀ (s s1 : Snake) (r : Nat → Nat) (fuel i : Nat) (s2 : Snake) (j : Nat),
        s.growth = 0 → move s = some s1 → s1.head = s1.nextPoint →
        s1.head ∉ s1.tail → advance r fuel i s = some (s2, j) →
        s2.tail.length = s.tail.length ∧ s2.growth = 1) ∧
    (∀ (u u1 : Snake) (r : Nat → Nat) (fuel i : Nat) (u2 : Snake) (j : Nat),
        u.growth = 1 → move u = some u1 → u1.head ∉ u1.tail →
        advance r fuel i u = some (u2, j) →
        u2.tail.length = u.tail.length + 1) ∧
    (∀ (b b1 : Snake) (r : Nat → Nat) (fuel i : Nat) (b2 : Snake) (j : Nat),
        b.growth = 0 → move b = some b1 → b1.head ≠ b1.nextPoint →
        b1.head ∉ b1.tail → advance r fuel i b = some (b2, j) →
        b2.tail.length = b.tail.length) := by
  refine ⟨?_, ?_, ?_⟩
  · intro s s1 r fuel i s2 j hg hm hf hnc hadv
    obtain ⟨hteq, hh, hcase⟩ := advance_no_collision r fuel i s s1 s2 j hm hadv hnc
    have hlen := move_tail_length s s1 hm
    rw [if_neg (by rw [hg]; norm_num)] at hlen
    have hguard := move_guard s s1 hm
    rw [if_neg (by rw [hg]; norm_num)] at hguard
    constructor
    · rw [hteq]; omega
    · rcases hcase with ⟨_, hgr⟩ | ⟨hne, _⟩
      · rw [hgr]
        have hs1g : s1.growth = 0 := by
          rw [move_some_eq s s1 hm]
          show (if s.growth > 0 then s.growth - 1 else s.growth) = 0
          rw [if_neg (by rw [hg]; norm_num), hg]
        rw [hs1g]
        norm_num
      · exact absurd hf hne
  · intro u u1 r fuel i u2 j hg hm hnc hadv
    obtain ⟨hteq, _, _⟩ := advance_no_collision r fuel i u u1 u2 j hm hadv hnc
    have hlen := move_tail_length u u1 hm
    rw [if_pos (by rw [hg]; norm_num)] at hlen
    rw [hteq]
    omega
  · intro b b1 r fuel i b2 j hg hm hf hnc hadv
    obtain ⟨hteq, _, _⟩ := advance_no_collision r fuel i b b1 b2 j hm hadv hnc
    have hlen := move_tail_length b b1 hm
    rw [if_neg (by rw [hg]; norm_num)] at hlen
    have hguard := move_guard b b1 hm
    rw [if_neg (by rw [hg]; norm_num)] at hguard
    rw [hteq]
    omega

/-- Witness for C6_growth_delay on the first consuming tick of a concrete
run. -/
theorem C6_growth_delay_witness :
    eatOnce.tail.length = startFood32.tail.length ∧ eatOnce.growth = 1 :=
  C6_growth_delay.1 startFood32 startFood32Moved rngFood31 1 0 eatOnce 2
    rfl (by decide) (by decide) (by decide) (by decide)

/-- C7: whenever a food placement terminates, the produced cell differs from
the head and from every tail cell, for every head position and tail contents
given to the placement. -/
theorem C7_food_distinct (r : Nat → Nat) (hd : Point) (tl : List Point)
    (fuel i : Nat) (p : Point) (j : Nat)
    (h : generateNextPoint r hd tl fuel i = some (p, j)) :
    p ≠ hd ∧ p ∉ tl :=
  generateNextPoint_avoid fuel r hd tl i p j h

/-- Witness for C7_food_distinct on the initial placement. -/
theorem C7_food_distinct_witness :
    (⟨9, 9⟩ : Point) ≠ initialSnake.head ∧ (⟨9, 9⟩ : Point) ∉ initialSnake.tail :=
  C7_food_distinct rngNine initialSnake.head initialSnake.tail 1 0 ⟨9, 9⟩ 2
    (by decide)

/-- C2, counterexample construction: turn left, down, then right from the
start, with the food parked at (9,9); the third tick runs the head into the
third tail cell. -/
def turnLeft1 : Snake :=
  { initialSnake with
      nextPoint := ⟨9, 9⟩, head := ⟨2, 3⟩,
      tail := [⟨3, 3⟩, ⟨3, 4⟩, ⟨3, 5⟩, ⟨3, 6⟩, ⟨3, 7⟩],
      direction := 'l', nextDirection := 'l' }

/-- Second prepared state of the loop run: heading down at (2,4). -/
def turnDown2 : Snake :=
  { initialSnake with
      nextPoint := ⟨9, 9⟩, head := ⟨2, 4⟩,
      tail := [⟨2, 3⟩, ⟨3, 3⟩, ⟨3, 4⟩, ⟨3, 5⟩, ⟨3, 6⟩],
      direction := 'd', nextDirection := 'd' }

/-- The loop run just before the colliding tick: Right pressed. -/
def loopReady : Snake := { turnDown2 with nextDirection := 'r' }

/-- The loop run after the colliding tick: the head landed on old cell
(3,4), the tail was cut from five cells to three. -/
def loopDone : Snake :=
  { initialSnake with
      nextPoint := ⟨9, 9⟩, head := ⟨3, 4⟩,
      tail := [⟨2, 4⟩, ⟨2, 3⟩, ⟨3, 3⟩],
      direction := 'r', nextDirection := 'r' }

/-- C2 fails as stated: a reachable state whose tick shrinks the tail from
five cells to three, a change of minus two in one tick. -/
theorem C2_counterexample :
    Reachable loopReady ∧ advance rngZero 1 0 loopReady = some (loopDone, 0) ∧
      loopReady.tail.length = 5 ∧ loopDone.tail.length = 3 := by
  refine ⟨?_, by decide, by decide, by decide⟩
  have h0 : Reachable startFood99 := startFood99_reachable
  have h1 : Reachable (submitDirection startFood99 'l') :=
    Reachable.submit _ _ h0 (Or.inr (Or.inr (Or.inl rfl)))
  have h2 : Reachable turnLeft1 :=
    Reachable.tick _ rngZero 1 0 _ 0 h1 (by decide)
  have h3 : Reachable (submitDirection turnLeft1 'd') :=
    Reachable.submit _ _ h2 (Or.inr (Or.inl rfl))
  have h4 : Reachable turnDown2 :=
    Reachable.tick _ rngZero 1 0 _ 0 h3 (by decide)
  have h5 : Reachable (submitDirection turnDown2 'r') :=
    Reachable.submit _ _ h4 (Or.inr (Or.inr (Or.inr rfl)))
  exact h5

/-- C2, amended: a tick never lengthens the tail by more than one, and
without a self-collision the change is exactly zero or plus one; a
self-collision truncation may shrink the tail by more than one. -/
theorem C2_length_change (r : Nat → Nat) (fuel i : Nat) (s s2 : Snake)
    (j : Nat) (hadv : advance r fuel i s = some (s2, j)) :
    s2.tail.length ≤ s.tail.length + 1 ∧
      ∀ s1, move s = some s1 → s1.head ∉ s1.tail →
        (s2.tail.length = s.tail.length ∨
          s2.tail.length = s.tail.length + 1) := by
  obtain ⟨t1, t2, hm, hc, hs2⟩ := advance_some r fuel i s s2 j hadv
  obtain ⟨hh, ht, _, _, _⟩ := checkPoint_some r fuel i t1 t2 j hc
  have hlen1 := move_tail_length s t1 hm
  have hguard := move_guard s t1 hm
  constructor
  · subst hs2
    have hle : (truncAt t2.head t2.tail).length ≤ t2.tail.length :=
      truncAt_length_le _ _
    have hlen2 : t2.tail.length = t1.tail.length := by rw [ht]
    show (truncAt t2.head t2.tail).length ≤ _
    by_cases hgrow : s.growth > 0
    · rw [if_pos hgrow] at hlen1; omega
    · rw [if_neg hgrow] at hlen1; omega
  · intro s1 hm' hnc
    rw [hm] at hm'
    have heq : t1 = s1 := (Option.some.injEq _ _).mp hm'
    rw [← heq] at hnc
    subst hs2
    have htr : truncAt t2.head t2.tail = t2.tail := by
      rw [hh, ht]; exact truncAt_of_not_mem t1.head t1.tail hnc
    show (truncAt t2.head t2.tail).length = _ ∨
      (truncAt t2.head t2.tail).length = _
    rw [htr, ht]
    by_cases hgrow : s.growth > 0
    · rw [if_pos hgrow] at hlen1; exact Or.inr (by omega)
    · rw [if_neg hgrow] at hlen1; rw [if_neg hgrow] at hguard
      exact Or.inl (by omega)

/-- Witness for C2_length_change on a concrete collision-free tick. -/
theorem C2_length_change_witness :
    afterTick99.tail.length ≤ startFood99.tail.length + 1 ∧
      ∀ s1, move startFood99 = some s1 → s1.head ∉ s1.tail →
        (afterTick99.tail.length = startFood99.tail.length ∨
          afterTick99.tail.length = startFood99.tail.length + 1) :=
  C2_length_change rngZero 1 0 startFood99 afterTick99 0 (by decide)

/-- C3: on every reachable state move() takes its success branch — the
tail-rebuild slice is in bounds, its panic branch is unreachable — and the
tick as a whole can only fail in the model when the head landed on the food
and the placement retry recursion did not terminate within its fuel, the
probability-zero event the spec sets aside. -/
theorem C3_advance_total (s : Snake) (h : Reachable s) :
    ∃ s1, move s = some s1 ∧ ∀ (r : Nat → Nat) (fuel i : Nat),
      advance r fuel i s = none →
      s1.head = s1.nextPoint ∧
        generateNextPoint r s1.head s1.tail fuel i = none := by
  obtain ⟨_, _, _, htail⟩ := reach_inv s h
  refine ⟨_, move_eq s htail, ?_⟩
  intro r fuel i hadv
  have hcp := advance_none r fuel i s _ (move_eq s htail) hadv
  exact checkPoint_none r fuel i _ hcp

/-- Witness for C3_advance_total at a concrete reachable state. -/
theorem C3_advance_total_witness :
    ∃ s1, move startFood99 = some s1 ∧ ∀ (r : Nat → Nat) (fuel i : Nat),
      advance r fuel i startFood99 = none →
      s1.head = s1.nextPoint ∧
        generateNextPoint r s1.head s1.tail fuel i = none :=
  C3_advance_total startFood99 startFood99_reachable

/-- A state whose tail loops back next to the head, so that moving up lands
the head on the third tail cell. -/
def collStart : Snake := { initialSnake with tail := [⟨3, 4⟩, ⟨3, 2⟩, ⟨2, 3⟩] }

/-- collStart after move(): head on the old (3,2) tail cell. -/
def collMoved : Snake :=
  { initialSnake with tail := [⟨3, 3⟩, ⟨3, 4⟩, ⟨3, 2⟩], head := ⟨3, 2⟩ }

/-- collStart after the full tick: tail truncated before the collision. -/
def collEnd : Snake :=
  { initialSnake with tail := [⟨3, 3⟩, ⟨3, 4⟩], head := ⟨3, 2⟩ }

/-- C5: whenever the post-move tail holds a cell equal to the new head, with
k the index (0-based from the head-adjacent end) of the first such cell, the
tick leaves exactly the first k tail cells. -/
theorem C5_collision_truncation (s s1 : Snake) (r : Nat → Nat) (fuel i : Nat)
    (s2 : Snake) (j k : Nat)
    (hm : move s = some s1)
    (hadv : advance r fuel i s = some (s2, j))
    (hk : s1.tail[k]? = some s1.head)
    (hfirst : ∀ m, m < k → s1.tail[m]? ≠ some s1.head) :
    s2.tail = s1.tail.take k := by
  obtain ⟨t1, t2, hm', hc, hs2⟩ := advance_some r fuel i s s2 j hadv
  rw [hm] at hm'
  have ht1 : t1 = s1 := ((Option.some.injEq _ _).mp hm').symm
  rw [ht1] at hc
  obtain ⟨hh, ht, _, _, _⟩ := checkPoint_some r fuel i s1 t2 j hc
  subst hs2
  show truncAt t2.head t2.tail = s1.tail.take k
  rw [hh, ht]
  exact truncAt_firstMatch s1.head s1.tail k hk hfirst

/-- Witness for C5_collision_truncation on a concrete collision tick. -/
theorem C5_collision_truncation_witness :
    collEnd.tail = collMoved.tail.take 2 :=
  C5_collision_truncation collStart collMoved rngZero 1 0 collEnd 0 2
    (by decide) (by decide) (by decide) (by decide)

/-- C8: a submitted direction byte is recorded as pending exactly when it is
not the reverse of the committed direction, a reversal being silently
dropped; consequently, from a state committed and pending Right, submitting
Left and then ticking leaves the committed direction Right. -/
theorem C8_reversal_rejection :
    (∀ (s : Snake) (d : Char), dirOk d →
      (d ≠ reverseDir s.direction →
        submitDirection s d = { s with nextDirection := d }) ∧
      (d = reverseDir s.direction → submitDirection s d = s)) ∧
    (∀ s : Snake, s.direction = 'r' → s.nextDirection = 'r' →
      ∀ (r : Nat → Nat) (fuel i : Nat) (s' : Snake) (j : Nat),
        advance r fuel i (submitDirection s 'l') = some (s', j) →
        s'.direction = 'r') := by
  constructor
  · intro s d hd
    constructor
    · intro hne
      unfold submitDirection
      rw [if_neg]
      intro he
      exact hne (by rw [he, reverseDir_invol])
    · intro heq
      unfold submitDirection
      rw [if_pos (by rw [heq, reverseDir_invol])]
  · intro s hdir hnext r fuel i s' j hadv
    have hsub : submitDirection s 'l' = s := by
      unfold submitDirection
      rw [if_pos (by rw [hdir]; rfl)]
    rw [hsub] at hadv
    obtain ⟨s1, s2, hm, hc, hs'⟩ := advance_some r fuel i s s' j hadv
    have h1 := move_some_eq s s1 hm
    obtain ⟨_, _, hd2, _, _⟩ := checkPoint_some r fuel i s1 s2 j hc
    subst hs'
    show s2.direction = 'r'
    rw [hd2, h1]
    exact hnext

/-- Witness for C8_reversal_rejection: a legal 90 degree turn is recorded. -/
theorem C8_reversal_rejection_witness :
    submitDirection initialSnake 'l' = { initialSnake with nextDirection := 'l' } :=
  (C8_reversal_rejection.1 initialSnake 'l'
    (Or.inr (Or.inr (Or.inl rfl)))).1 (by decide)

/-- C9: one tick from the initial snake shape, whatever the food cell and
random stream, yields head (3,2) and tail [(3,3),(3,4),(3,5),(3,6),(3,7)]:
length unchanged, oldest cell (3,8) dropped. -/
theorem C9_first_tick (p : Point) (r : Nat → Nat) (fuel i : Nat)
    (s' : Snake) (j : Nat)
    (hadv : advance r fuel i { initialSnake with nextPoint := p } = some (s', j)) :
    s'.head = ⟨3, 2⟩ ∧ s'.tail = [⟨3, 3⟩, ⟨3, 4⟩, ⟨3, 5⟩, ⟨3, 6⟩, ⟨3, 7⟩] := by
  obtain ⟨s1, s2, hm, hc, hs'⟩ := advance_some r fuel i _ s' j hadv
  have h1 := move_some_eq _ _ hm
  obtain ⟨hh, ht, _, _, _⟩ := checkPoint_some r fuel i s1 s2 j hc
  subst hs'
  constructor
  · show s2.head = _
    rw [hh, h1]
    rfl
  · show truncAt s2.head s2.tail = _
    rw [hh, ht, h1]
    rfl

/-- Witness for C9_first_tick on a concrete food cell and stream. -/
theorem C9_first_tick_witness :
    afterTick99.head = ⟨3, 2⟩ ∧
      afterTick99.tail = [⟨3, 3⟩, ⟨3, 4⟩, ⟨3, 5⟩, ⟨3, 6⟩, ⟨3, 7⟩] :=
  C9_first_tick ⟨9, 9⟩ rngZero 1 0 afterTick99 0 (by decide)

/-- C10: in every reachable state the tail is non-empty. -/
theorem C10_tail_nonempty (s : Snake) (h : Reachable s) : s.tail ≠ [] :=
  (reach_inv s h).2.2.2

/-- Witness for C10_tail_nonempty at a concrete reachable state. -/
theorem C10_tail_nonempty_witness : startFood99.tail ≠ [] :=
  C10_tail_nonempty startFood99 startFood99_reachable

end SnakeGame
